import Mathlib

/-!
Verification of the MHT-CET cutoff bulletin text parser (`final_parser.py`).

Lines of Python strings are modelled as `List Char`.  Every function below is a
shallow embedding of the corresponding Python function or loop; the Python
source location is given in each doc comment.
-/

/-- Python strings are modelled as lists of characters. -/
abbrev Str := List Char

namespace Cet

/-- Characters stripped by Python's `str.strip()`. -/
def pySpace (c : Char) : Bool :=
  c = ' ' || c = '\t' || c = '\n' || c = '\r' || c = '\x0b' || c = '\x0c'

/-- Python `str.strip()`: remove leading and trailing whitespace. -/
def pyStrip (s : Str) : Str :=
  ((s.dropWhile pySpace).reverse.dropWhile pySpace).reverse

/-- Auxiliary scanner for `pySplit`; `cur` is the current word, reversed. -/
def pySplitAux : Str → Str → List Str
  | [], cur => if cur.isEmpty then [] else [cur.reverse]
  | c :: cs, cur =>
    if pySpace c then
      if cur.isEmpty then pySplitAux cs [] else cur.reverse :: pySplitAux cs []
    else pySplitAux cs (c :: cur)

/-- Python `str.split()` with no argument: split on runs of whitespace, no empty parts. -/
def pySplit (s : Str) : List Str := pySplitAux s []

/-- Python `text.split('\n')`: split on newlines, keeping empty parts. -/
def splitLines : Str → List Str
  | [] => [[]]
  | c :: rest =>
    if c = '\n' then [] :: splitLines rest
    else
      match splitLines rest with
      | [] => [[c]]
      | w :: ws => (c :: w) :: ws

/-- Python `s.split(sep, 1)`: the part before the first occurrence of `sep`, and
the part after it when `sep` occurs. -/
def splitFirst (sep : Str) : Str → Str × Option Str
  | [] => ([], none)
  | c :: rest =>
    if sep.isPrefixOf (c :: rest) then ([], some ((c :: rest).drop sep.length))
    else
      let r := splitFirst sep rest
      (c :: r.1, r.2)

/-- Python's `sub in s` substring test. -/
def containsSubstr (s pat : Str) : Bool :=
  s.tails.any fun t => pat.isPrefixOf t

/-- The regex `^[A-Z]{2,}\d*[HOS]?$` from `final_parser.py` (used at lines 25,
104, 131, 218): two or more uppercase ASCII letters, then optional digits, then
an optional single trailing `H`, `O` or `S`.  Greedy matching with this shape
is equivalent to maximal-munch scanning. -/
def matchCategoryPattern (s : Str) : Bool :=
  let letters := s.takeWhile Char.isUpper
  let rest1 := s.dropWhile Char.isUpper
  let rest2 := rest1.dropWhile Char.isDigit
  decide (2 ≤ letters.length) &&
    (match rest2 with
     | [] => true
     | [c] => c = 'H' || c = 'O' || c = 'S'
     | _ => false)

/-- The fixed correction table of `fix_category_name` (`final_parser.py`
lines 9-18). -/
def categoryFixes : List (Str × Str) :=
  [("SDEFRSEBC".data, "DEFRSEBCS".data),
   ("SEWS".data, "EWS".data),
   ("SORPHAN".data, "ORPHAN".data),
   ("SDEFRSCS".data, "DEFRSCS".data),
   ("SDEFROBCS".data, "DEFROBCS".data),
   ("SDEFRNT1S".data, "DEFRNT1S".data),
   ("SDEFRNT2S".data, "DEFRNT2S".data),
   ("SDEFRNT3S".data, "DEFRNT3S".data)]

/-- Lookup in the correction table (Python `word in category_fixes` /
`category_fixes[word]`). -/
def lookupFix (w : Str) : List (Str × Str) → Option Str
  | [] => none
  | (k, v) :: rest => if w = k then some v else lookupFix w rest

/-- Embedding of `fix_category_name` (`final_parser.py` lines 7-28): exact lookup in the
correction table; otherwise, for a token starting with `S`, longer than 4
characters and distinct from STAGE/STATE/STATUS, strip the leading `S` if the
remainder matches the category pattern; otherwise return the token unchanged. -/
def fix_category_name (w : Str) : Str :=
  match lookupFix w categoryFixes with
  | some v => v
  | none =>
    if "S".data.isPrefixOf w && decide (4 < w.length) &&
        !(w = "STAGE".data) && !(w = "STATE".data) && !(w = "STATUS".data) then
      let potential := w.drop 1
      if matchCategoryPattern potential then potential else w
    else w

/-- A nonnegative rational in lowest terms, modelling the exact values of the
Python floats produced by `float(p)` on decimal captures.  Kept in canonical
form so that structural equality coincides with value equality. -/
structure Dec where
  num : Nat
  den : Nat
deriving DecidableEq

/-- Euclid's algorithm with explicit fuel (so that it reduces in the kernel);
`fuel` at least `b + 1` computes `gcd a b`. -/
def myGcd : Nat → Nat → Nat → Nat
  | 0, a, _ => a
  | f + 1, a, b => if b = 0 then a else myGcd f b (a % b)

/-- Canonical fraction `n / d` in lowest terms (`d ≥ 1`). -/
def normDec (n d : Nat) : Dec :=
  let g := myGcd (d + 1) n d
  ⟨n / g, d / g⟩

/-- Value comparison `x ≤ y` on fractions. -/
def decLeB (x y : Dec) : Bool :=
  decide (x.num * y.den ≤ y.num * x.den)

/-- One output record (`final_parser.py` lines 169-176 / 249-256).
Percentiles (Python floats holding short decimals) are modelled as exact
rationals (`Dec`). -/
structure Record where
  institute_code : Str
  institute_name : Str
  course_code : Str
  course : Str
  category : Str
  percentile : Option Dec
deriving DecidableEq

instance : Inhabited Record :=
  ⟨⟨[], [], [], [], [], none⟩⟩

/-- The token-classifier test applied after correction (`final_parser.py`
lines 104-105, 131-132, 218-219): the corrected word matches
`^[A-Z]{2,}\d*[HOS]?$` and has length ≥ 2, or equals `EWS`. -/
def tokenIsCategory (w : Str) : Bool :=
  (matchCategoryPattern w && decide (2 ≤ w.length)) || w = "EWS".data

/-- Correct each word and keep those classified as categories
(`final_parser.py` lines 102-106, 129-133, 216-220). -/
def extractCatsFromWords (ws : List Str) : List Str :=
  ws.filterMap fun w =>
    let c := fix_category_name w
    if tokenIsCategory c then some c else none

/-- Attempt to match `[0-9]+\.?[0-9]+\)` (the inside of the findall pattern at
`final_parser.py` lines 149 and 228) at the start of `t`, returning the
captured group.  The second digit run must be nonempty, so at least two digits
are needed in the undotted case. -/
def tryCapCode (t : Str) : Option Str :=
  let m1 := t.takeWhile Char.isDigit
  let r1 := t.dropWhile Char.isDigit
  if m1.isEmpty then none
  else
    match r1 with
    | ')' :: _ => if 2 ≤ m1.length then some m1 else none
    | '.' :: r2 =>
      let m2 := r2.takeWhile Char.isDigit
      match r2.dropWhile Char.isDigit with
      | ')' :: _ => if m2.isEmpty then none else some (m1 ++ '.' :: m2)
      | _ => none
    | _ => none

/-- Embedding of `re.findall(r'\(([0-9]+\.?[0-9]+)\)', line)`: all captured groups, left to
right.  Matched regions never overlap (a match contains no inner `(`), so a
plain character scan is faithful to `findall`. -/
def findAllParenDecimals : Str → List Str
  | [] => []
  | c :: rest =>
    if c = '(' then
      match tryCapCode rest with
      | some cap => cap :: findAllParenDecimals rest
      | none => findAllParenDecimals rest
    else findAllParenDecimals rest

/-- Value of a digit string as a natural number. -/
def natOfDigits (s : Str) : Nat :=
  s.foldl (fun n c => n * 10 + (c.toNat - 48)) 0

/-- Python `float(p)` on a regex capture (digits with at most one dot),
as an exact rational. -/
def parseDec (s : Str) : Dec :=
  let ip := s.takeWhile Char.isDigit
  match s.dropWhile Char.isDigit with
  | '.' :: fp => normDec (natOfDigits ip * 10 ^ fp.length + natOfDigits fp) (10 ^ fp.length)
  | _ => ⟨natOfDigits ip, 1⟩

/-- Percentile extraction from one (already stripped) line
(`final_parser.py` lines 149-156 and 228-235): every findall capture whose
value lies in [0, 100].  (The `except ValueError` branch is dead code: every
capture is a valid float literal.) -/
def extractPercentiles (l : Str) : List Dec :=
  (findAllParenDecimals l).filterMap fun cap =>
    let v := parseDec cap
    if decLeB ⟨0, 1⟩ v && decLeB v ⟨100, 1⟩ then some v else none

/-- Embedding of `re.search(r'\(\d+\.\d+\)', line)` (`final_parser.py` lines 114 and 206):
does the line contain a parenthesized decimal with digits on both sides of a
dot? -/
def containsParenDot (l : Str) : Bool :=
  l.tails.any fun t =>
    match t with
    | '(' :: r =>
      let m1 := r.takeWhile Char.isDigit
      (!m1.isEmpty) &&
        (match r.dropWhile Char.isDigit with
         | '.' :: r2 =>
           let m2 := r2.takeWhile Char.isDigit
           (!m2.isEmpty) &&
             (match r2.dropWhile Char.isDigit with
              | ')' :: _ => true
              | _ => false)
         | _ => false)
    | _ => false

/-- Python `percentiles[i] if i < len(percentiles) else None`, paired positionally
with each category, carried out with a running index (`final_parser.py`
lines 167-177 and 247-257). -/
def assembleFrom (ic inm cc cn : Str) (pcts : List Dec) : List Str → Nat → List Record
  | [], _ => []
  | cat :: cats, i =>
    { institute_code := ic, institute_name := inm, course_code := cc,
      course := cn, category := cat, percentile := pcts.get? i } ::
      assembleFrom ic inm cc cn pcts cats (i + 1)

/-- The record-assembly loop shared by both parsers (`final_parser.py`
lines 166-178 and 246-257). -/
def assembleRecords (ic inm cc cn : Str) (cats : List Str) (pcts : List Dec) :
    List Record :=
  assembleFrom ic inm cc cn pcts cats 0

/-- Stop test of the category-collection loop of the simple-table parser
(`final_parser.py` lines 113-125), on the stripped line. -/
def collectStop (s : Str) : Bool :=
  (containsParenDot s || "I ".data.isPrefixOf s || s.isEmpty) ||
    ("Home".data.isPrefixOf s || "Other".data.isPrefixOf s ||
      "State".data.isPrefixOf s)

/-- The category-collection loop of the simple-table parser
(`final_parser.py` lines 109-135), over the lines after the header line.
Returns the extra categories and, when a stopping line was met, the suffix of
the block starting at that line (the recorded `data_start_idx`). -/
def collectCats : List Str → List Str × Option (List Str)
  | [] => ([], none)
  | l :: rest =>
    let s := pyStrip l
    if collectStop s then ([], some (l :: rest))
    else
      let ws := pySplit s
      let words := if ws.isEmpty then [s] else ws
      let r := collectCats rest
      (extractCatsFromWords words ++ r.1, r.2)

/-- The primary category header test (`final_parser.py` line 100): the
stripped line contains `GOPENS` or `GOPENH` and has at least 8
whitespace-separated tokens. -/
def isHeaderLine (s : Str) : Bool :=
  (containsSubstr s "GOPENS".data || containsSubstr s "GOPENH".data) &&
    decide (8 ≤ (pySplit s).length)

/-- Header scan of the simple-table parser (`final_parser.py` lines 97-137):
find the first header line, collect its categories and those of the following
lines until a stopping line, and record the data-section start. -/
def simpleScan (cs : List Str) : List Str × Option (List Str) :=
  match cs.findIdx? fun l => isHeaderLine (pyStrip l) with
  | none => ([], none)
  | some i =>
    let headerCats := extractCatsFromWords (pySplit (pyStrip (cs.getD i [])))
    let r := collectCats (cs.drop (i + 1))
    (headerCats ++ r.1, r.2)

/-- Stop test of the percentile loop of the simple-table parser
(`final_parser.py` lines 158-164), on the stripped line; checked after
extraction. -/
def simplePctStop (s : Str) : Bool :=
  s.isEmpty || "Home University".data.isPrefixOf s ||
    "Other Than".data.isPrefixOf s || "State".data.isPrefixOf s ||
    containsSubstr s "Stage".data

/-- The percentile loop of the simple-table parser (`final_parser.py`
lines 145-164), over the block suffix starting at the data-section start:
extract percentiles from each stripped line, stopping after the first line
that satisfies `simplePctStop`. -/
def simplePcts : List Str → List Dec
  | [] => []
  | l :: rest =>
    let s := pyStrip l
    let vals := extractPercentiles s
    if simplePctStop s then vals
    else vals ++ simplePcts rest

/-- Embedding of `parse_simple_table_course` (`final_parser.py` lines 91-179). -/
def parse_simple_table_course (cs : List Str) (ic inm cc cn : Str) :
    List Record :=
  let r := simpleScan cs
  if r.1.isEmpty then []
  else
    let pcts := match r.2 with
      | some suffix => simplePcts suffix
      | none => []
    assembleRecords ic inm cc cn r.1 pcts

/-- The section-header test of the multi-section parser (`final_parser.py`
lines 190-193): the stripped line contains one of the three allotment-scope
phrases as a substring, or equals `State Level` exactly. -/
def isSectionMarker (s : Str) : Bool :=
  containsSubstr s "Home University Seats Allotted to Home University".data ||
    containsSubstr s "Home University Seats Allotted to Other Than Home University".data ||
    containsSubstr s "Other Than Home University Seats Allotted to Other Than Home University".data ||
    decide (s = "State Level".data)

/-- Stop test of the category phase of the multi-section parser
(`final_parser.py` lines 204-211), on the stripped line. -/
def catPhaseStop (s : Str) : Bool :=
  "I ".data.isPrefixOf s || containsParenDot s ||
    containsSubstr s "Home University Seats Allotted".data ||
    decide (s = "State Level".data) ||
    containsSubstr s "Other Than Home University Seats Allotted".data ||
    containsSubstr s "Legends:".data

/-- The category phase of the multi-section parser (`final_parser.py`
lines 199-221), over the lines after the section marker: collect category
tokens from each nonempty stripped line until a boundary line; returns the
categories and the block suffix starting at the boundary line. -/
def catPhase : List Str → List Str × List Str
  | [] => ([], [])
  | l :: rest =>
    let s := pyStrip l
    if catPhaseStop s then ([], l :: rest)
    else
      let cats := if s.isEmpty then [] else extractCatsFromWords (pySplit s)
      let r := catPhase rest
      (cats ++ r.1, r.2)

/-- Stop test of the percentile phase of the multi-section parser
(`final_parser.py` lines 237-242), on the stripped line; checked after
extraction. -/
def pctPhaseStop (s : Str) : Bool :=
  containsSubstr s "Stage".data ||
    containsSubstr s "Home University Seats Allotted".data ||
    decide (s = "State Level".data) ||
    containsSubstr s "Other Than Home University Seats Allotted".data ||
    containsSubstr s "Legends:".data

/-- The percentile phase of the multi-section parser (`final_parser.py`
lines 223-244): extract percentiles from each stripped line, stopping after
the first terminating line; returns the values and the block suffix starting
at the terminating line (the outer cursor resumes there). -/
def pctPhase : List Str → List Dec × List Str
  | [] => ([], [])
  | l :: rest =>
    let s := pyStrip l
    let vals := extractPercentiles s
    if pctPhaseStop s then (vals, l :: rest)
    else
      let r := pctPhase rest
      (vals ++ r.1, r.2)

/-- The outer cursor loop of `parse_multi_section_course` (`final_parser.py`
lines 186-262), with explicit fuel bounding the number of outer iterations;
each iteration consumes at least one line, so `length + 1` fuel suffices
(proved in the termination theorem below). -/
def multiLoop (ic inm cc cn : Str) : Nat → List Str → List Record
  | 0, _ => []
  | _ + 1, [] => []
  | f + 1, l :: rest =>
    let s := pyStrip l
    if isSectionMarker s then
      let pc := catPhase rest
      let pp := pctPhase pc.2
      assembleRecords ic inm cc cn pc.1 pp.1 ++ multiLoop ic inm cc cn f pp.2
    else multiLoop ic inm cc cn f rest

/-- Embedding of `parse_multi_section_course` (`final_parser.py` lines 181-264). -/
def parse_multi_section_course (cs : List Str) (ic inm cc cn : Str) :
    List Record :=
  multiLoop ic inm cc cn (cs.length + 1) cs

/-- Embedding of `re.match(r'^\d{5} - ', line)` (`final_parser.py` line 41): five digits
followed by `" - "` at the start of the line. -/
def matchInstLine (s : Str) : Bool :=
  decide (5 ≤ s.length) && (s.take 5).all Char.isDigit &&
    " - ".data.isPrefixOf (s.drop 5)

/-- Embedding of `re.match(r'^\d{10} - ', line)` (`final_parser.py` line 56): ten digits
followed by `" - "` at the start of the line. -/
def matchCourseLine (s : Str) : Bool :=
  decide (10 ≤ s.length) && (s.take 10).all Char.isDigit &&
    " - ".data.isPrefixOf (s.drop 10)

/-- Python `line.split(' - ', 1)` into code and name (`final_parser.py` lines 42-44
and 57-59); the name defaults to the empty string. -/
def courseSplit (s : Str) : Str × Str :=
  let r := splitFirst " - ".data s
  (r.1, r.2.getD [])

/-- The institute scan (`final_parser.py` lines 39-48): the first stripped
line matching the institute pattern, split into code and name. -/
def findInstitute (lines : List Str) : Option (Str × Str) :=
  match lines.find? (fun l => matchInstLine (pyStrip l)) with
  | some l => some (courseSplit (pyStrip l))
  | none => none

/-- The course scan (`final_parser.py` lines 54-61): every stripped line
matching the course pattern, in order, as `(line index, code, name)`. -/
def courseHeadersFrom : List Str → Nat → List (Nat × Str × Str)
  | [], _ => []
  | l :: ls, i =>
    let s := pyStrip l
    if matchCourseLine s then (i, courseSplit s) :: courseHeadersFrom ls (i + 1)
    else courseHeadersFrom ls (i + 1)

/-- All course headers of a page. -/
def courseHeaders (lines : List Str) : List (Nat × Str × Str) :=
  courseHeadersFrom lines 0

/-- Python dict assignment `d[k] = v`: replace the binding if present,
else append. -/
def assocSet : List (Str × Nat) → Str → Nat → List (Str × Nat)
  | [], k, v => [(k, v)]
  | (k', v') :: rest, k, v =>
    if k' = k then (k', v) :: rest else (k', v') :: assocSet rest k v

/-- Python dict access `d[k]` (as an option). -/
def assocGet (k : Str) : List (Str × Nat) → Option Nat
  | [] => none
  | (k', v) :: rest => if k' = k then some v else assocGet k rest

/-- The `course_positions` dict (`final_parser.py` lines 52, 61): keyed by
course code, so a duplicated code keeps only its last position. -/
def coursePositions (lines : List Str) : List (Str × Nat) :=
  (courseHeaders lines).foldl (fun acc h => assocSet acc h.2.1 h.1) []

/-- The per-course line ranges (`final_parser.py` lines 67-77):
`course_start = course_positions[code]`, and `course_end` is the position of
the next course's code (or the page length for the last course). -/
def courseRanges (lines : List Str) : List (Str × Str × Nat × Nat) :=
  let hs := courseHeaders lines
  let pos := coursePositions lines
  (List.range hs.length).map fun idx =>
    let h := hs.getD idx default
    let s := (assocGet h.2.1 pos).getD 0
    let e := if idx + 1 < hs.length then
        (assocGet ((hs.getD (idx + 1) default).2.1) pos).getD lines.length
      else lines.length
    (h.2.1, h.2.2, s, e)

/-- Membership of a line index in a course's `[start, end)` range. -/
def inRange (r : Str × Str × Nat × Nat) (l : Nat) : Bool :=
  decide (r.2.2.1 ≤ l) && decide (l < r.2.2.2)

/-- Embedding of `parse_cutoff_page_complete` (`final_parser.py` lines 30-89): extract the
institute, locate all courses and their ranges, and dispatch each course
section to the multi-section or simple-table parser according to whether any
of its lines contains `Home University Seats Allotted`. -/
def parse_cutoff_page_complete (text : Str) : List Record :=
  let lines := splitLines text
  match findInstitute lines with
  | none => []
  | some inst =>
    let rs := courseRanges lines
    if rs.isEmpty then []
    else
      (rs.map fun r =>
        let sect := (lines.drop r.2.2.1).take (r.2.2.2 - r.2.2.1)
        if sect.any fun l =>
            containsSubstr l "Home University Seats Allotted".data then
          parse_multi_section_course sect inst.1 inst.2 r.1 r.2.1
        else
          parse_simple_table_course sect inst.1 inst.2 r.1 r.2.1).flatten

/-- Python string comparison `a < b`: lexicographic on code points. -/
def strLtB : Str → Str → Bool
  | [], [] => false
  | [], _ :: _ => true
  | _ :: _, [] => false
  | a :: as, b :: bs =>
    if a.toNat < b.toNat then true
    else if b.toNat < a.toNat then false
    else strLtB as bs

/-- The three sort-key columns of the final dataset (`final_parser.py`
line 358): `(Institute_Code, Course_Code, Category)`. -/
def recKey (r : Record) : Str × Str × Str :=
  (r.institute_code, r.course_code, r.category)

/-- Lexicographic comparison of key triples, as pandas compares rows on the
three string sort columns. -/
def keyLtB (x y : Str × Str × Str) : Bool :=
  strLtB x.1 y.1 ||
    (x.1 == y.1 && (strLtB x.2.1 y.2.1 ||
      (x.2.1 == y.2.1 && strLtB x.2.2 y.2.2)))

/-- Pandas `df.drop_duplicates()` (`final_parser.py` line 357): keep the first
occurrence of each row, preserving order; `seen` accumulates earlier rows. -/
def dropDupsAux : List Record → List Record → List Record
  | _, [] => []
  | seen, r :: rs =>
    if r ∈ seen then dropDupsAux seen rs
    else r :: dropDupsAux (r :: seen) rs

/-- Row deduplication of the final dataset. -/
def dropDuplicates (l : List Record) : List Record := dropDupsAux [] l

/-- Insert a record into a sorted list, after any row of equal key (stable
insertion). -/
def ordInsert (r : Record) : List Record → List Record
  | [] => [r]
  | x :: xs =>
    if keyLtB (recKey x) (recKey r) = true then x :: ordInsert r xs
    else r :: x :: xs

/-- Pandas `df.sort_values(['Institute_Code', 'Course_Code', 'Category'])`
(`final_parser.py` line 358) as a stable insertion sort.  (pandas' default
sort algorithm leaves the order of equal keys unspecified; the properties
proved below hold for any correct ascending sort.) -/
def sortRecords : List Record → List Record
  | [] => []
  | r :: rs => ordInsert r (sortRecords rs)

/-- The final-dataset step of `full_conversion` (`final_parser.py`
lines 356-358): deduplicate rows, then sort by the key triple ascending. -/
def finalize (recs : List Record) : List Record :=
  sortRecords (dropDuplicates recs)

/-- Modelled from the spec wording of C3: attempt to match
`[0-9]+\.?[0-9]*\)` at the start of `t` (the second digit run may be empty, so
`(9)` and `(99.)` match).  Comparison definition for the spec's stated
extraction regex `\(([0-9]+\.?[0-9]*)\)`. -/
def tryCapSpec (t : Str) : Option Str :=
  let m1 := t.takeWhile Char.isDigit
  let r1 := t.dropWhile Char.isDigit
  if m1.isEmpty then none
  else
    match r1 with
    | ')' :: _ => some m1
    | '.' :: r2 =>
      let m2 := r2.takeWhile Char.isDigit
      match r2.dropWhile Char.isDigit with
      | ')' :: _ => some (m1 ++ '.' :: m2)
      | _ => none
    | _ => none

/-- Modelled from the spec wording of C3: findall with the spec's regex
`\(([0-9]+\.?[0-9]*)\)`. -/
def findAllParenDecimalsSpec : Str → List Str
  | [] => []
  | c :: rest =>
    if c = '(' then
      match tryCapSpec rest with
      | some cap => cap :: findAllParenDecimalsSpec rest
      | none => findAllParenDecimalsSpec rest
    else findAllParenDecimalsSpec rest

/-- Modelled from the spec wording of C3: per-line percentile extraction with
the spec's regex, filtered to [0, 100]. -/
def extractPercentilesSpec (l : Str) : List Dec :=
  (findAllParenDecimalsSpec l).filterMap fun cap =>
    let v := parseDec cap
    if decLeB ⟨0, 1⟩ v && decLeB v ⟨100, 1⟩ then some v else none

/-- The lines actually scanned by the percentile loop of the simple-table
parser: the block suffix up to and including the first stopping line. -/
def pctScanSegment : List Str → List Str
  | [] => []
  | l :: rest =>
    if simplePctStop (pyStrip l) then [l] else l :: pctScanSegment rest

/-- A successful lookup returns a pair from the table. -/
theorem lookupFix_mem {w v : Str} : ∀ {l : List (Str × Str)},
    lookupFix w l = some v → (w, v) ∈ l := by
  intro l
  induction l with
  | nil => intro h; simp [lookupFix] at h
  | cons p rest ih =>
    obtain ⟨k, v'⟩ := p
    intro h
    simp only [lookupFix] at h
    by_cases hw : w = k
    · rw [if_pos hw] at h
      injection h with hv
      subst hw; subst hv
      exact List.mem_cons_self _ _
    · rw [if_neg hw] at h
      exact List.mem_cons_of_mem _ (ih h)

/-- Function `fix_category_name` either leaves its input unchanged, or returns a
correction-table value, or strips a leading `S` from a token of length > 4. -/
theorem fix_result (w : Str) :
    fix_category_name w = w ∨
    lookupFix w categoryFixes = some (fix_category_name w) ∨
    ("S".data.isPrefixOf w = true ∧ 4 < w.length ∧
      fix_category_name w = w.drop 1) := by
  rcases hl : lookupFix w categoryFixes with _ | v
  · have hfw : fix_category_name w =
        (if "S".data.isPrefixOf w && decide (4 < w.length) &&
            !(w = "STAGE".data) && !(w = "STATE".data) && !(w = "STATUS".data) then
          (if matchCategoryPattern (w.drop 1) then w.drop 1 else w)
        else w) := by
      unfold fix_category_name
      rw [hl]
    split_ifs at hfw with hg hm
    · right; right
      simp only [Bool.and_eq_true, decide_eq_true_eq] at hg
      exact ⟨hg.1.1.1.1, hg.1.1.1.2, hfw⟩
    · exact Or.inl hfw
    · exact Or.inl hfw
  · right; left
    have hfw : fix_category_name w = v := by
      unfold fix_category_name
      rw [hl]
    rw [hfw]

/-- No correction-table key starts with a character other than `S`. -/
theorem lookupFix_none_of_head_ne {c : Char} (t : Str) (hc : ¬ c = 'S') :
    lookupFix (c :: t) categoryFixes = none := by
  simp [lookupFix, categoryFixes, hc]

/-- A token whose first character is not `S` is left unchanged by
`fix_category_name`. -/
theorem fix_fixpoint_of_head_ne {c : Char} (t : Str) (hc : ¬ c = 'S') :
    fix_category_name (c :: t) = c :: t := by
  unfold fix_category_name
  rw [lookupFix_none_of_head_ne t hc]
  have hp : "S".data.isPrefixOf (c :: t) = false := by
    have : ('S' == c) = false := by
      simp [beq_iff_eq]
      intro h; exact hc h.symm
    simp [List.isPrefixOf, this]
  simp [hp]

/-- C4, counterexample: the claim "fix(fix(w)) = fix(w) for every token w"
fails at w = "SSEWS": one application strips the doubled leading `S` giving
"SEWS", and a second application maps "SEWS" to "EWS" via the correction
table. -/
theorem c4_counterexample :
    fix_category_name (fix_category_name "SSEWS".data) ≠
      fix_category_name "SSEWS".data := by
  decide

/-- C4, amended: `fix_category_name` is idempotent on every token that does
not start with the two characters "SS".  (On a token starting with "SS" the
stripped remainder may itself be correctable again, as the counterexample
"SSEWS" shows.) -/
theorem c4_amended (w : Str) (h : "SS".data.isPrefixOf w = false) :
    fix_category_name (fix_category_name w) = fix_category_name w := by
  rcases fix_result w with hfw | hl | ⟨hpre, hlen, hfw⟩
  · rw [hfw]; exact hfw
  · have mem := lookupFix_mem hl
    have : fix_category_name w = "DEFRSEBCS".data ∨
        fix_category_name w = "EWS".data ∨
        fix_category_name w = "ORPHAN".data ∨
        fix_category_name w = "DEFRSCS".data ∨
        fix_category_name w = "DEFROBCS".data ∨
        fix_category_name w = "DEFRNT1S".data ∨
        fix_category_name w = "DEFRNT2S".data ∨
        fix_category_name w = "DEFRNT3S".data := by
      simp only [categoryFixes, List.mem_cons, List.not_mem_nil, or_false,
        Prod.mk.injEq] at mem
      rcases mem with ⟨_, hv⟩ | ⟨_, hv⟩ | ⟨_, hv⟩ | ⟨_, hv⟩ | ⟨_, hv⟩ |
        ⟨_, hv⟩ | ⟨_, hv⟩ | ⟨_, hv⟩ <;> simp [hv]
    rcases this with h | h | h | h | h | h | h | h <;> rw [h] <;> decide
  · -- w = 'S' :: c :: t with c ≠ 'S'
    obtain ⟨t0, ht0⟩ : ∃ t0, w = 'S' :: t0 := by
      cases w with
      | nil => simp [List.isPrefixOf] at hpre
      | cons a as =>
        have : ('S' == a) = true := by
          have := hpre
          simp only [List.isPrefixOf, Bool.and_eq_true] at this
          exact this.1
        have ha : 'S' = a := by simpa [beq_iff_eq] using this
        exact ⟨as, by rw [← ha]⟩
    obtain ⟨c, t, hct⟩ : ∃ c t, t0 = c :: t := by
      cases t0 with
      | nil =>
        rw [ht0] at hlen
        simp at hlen
      | cons c t => exact ⟨c, t, rfl⟩
    have hc : ¬ c = 'S' := by
      intro hcS
      rw [ht0, hct, hcS] at h
      simp [List.isPrefixOf] at h
    rw [hfw, ht0, hct]
    simpa using fix_fixpoint_of_head_ne t hc

/-- Witness for `c4_amended` at the concrete token "SEWS" (which starts with
a single `S`): the hypothesis holds and the conclusion evaluates. -/
theorem c4_witness :
    "SS".data.isPrefixOf "SEWS".data = false ∧
      fix_category_name (fix_category_name "SEWS".data) =
        fix_category_name "SEWS".data :=
  ⟨by decide, c4_amended "SEWS".data (by decide)⟩

/-- Length of the assembly loop output. -/
theorem assembleFrom_length (ic inm cc cn : Str) (pcts : List Dec) :
    ∀ (cats : List Str) (i : Nat),
      (assembleFrom ic inm cc cn pcts cats i).length = cats.length := by
  intro cats
  induction cats with
  | nil => intro i; rfl
  | cons c cs ih => intro i; simp [assembleFrom, ih]

/-- Shape of the k-th record produced by the assembly loop. -/
theorem assembleFrom_getD (ic inm cc cn : Str) (pcts : List Dec) :
    ∀ (cats : List Str) (i k : Nat), k < cats.length →
      (assembleFrom ic inm cc cn pcts cats i).getD k default =
        { institute_code := ic, institute_name := inm, course_code := cc,
          course := cn, category := cats.getD k [],
          percentile := pcts.get? (i + k) } := by
  intro cats
  induction cats with
  | nil => intro i k hk; simp at hk
  | cons c cs ih =>
    intro i k hk
    cases k with
    | zero => simp [assembleFrom]
    | succ k =>
      have hk' : k < cs.length := by simpa using hk
      have := ih (i + 1) k hk'
      simp only [assembleFrom, List.getD_cons_succ]
      rw [this]
      have harith : i + 1 + k = i + (k + 1) := by omega
      rw [harith]

/-- Entries of `pcts` beyond the category count are never read. -/
theorem assembleFrom_take (ic inm cc cn : Str) (pcts : List Dec) :
    ∀ (cats : List Str) (i n : Nat), i + cats.length ≤ n →
      assembleFrom ic inm cc cn (pcts.take n) cats i =
        assembleFrom ic inm cc cn pcts cats i := by
  intro cats
  induction cats with
  | nil => intro i n _; rfl
  | cons c cs ih =>
    intro i n h
    simp only [assembleFrom]
    congr 1
    · simp only [Record.mk.injEq, true_and]
      have hi : i < n := by simp at h; omega
      clear h ih
      induction pcts generalizing i n with
      | nil => simp
      | cons p ps ihp =>
        cases n with
        | zero => omega
        | succ n =>
          cases i with
          | zero => simp
          | succ i =>
            simp only [List.take_succ_cons, List.get?_cons_succ]
            exact ihp i n (by omega)
    · exact ih (i + 1) n (by simp at h; omega)

/-- C5: RecordAssembler is purely positional.  For ordered category list C and
percentile list P it produces `len(C)` records; record i carries category
`C[i]` and percentile `P[i]` when `i < len(P)` and an absent percentile
otherwise (`pcts.get? i`); elements of P beyond `len(C)` are dropped (taking
only the first `len(C)` percentiles gives the same records).  In particular
with C = [GOPENS, GOPENH, GSCS] and P = [99.99, 95.0] it yields 3 records
whose third has an absent percentile and whose first two have 99.99 and
95.0. -/
theorem c5_assembler (ic inm cc cn : Str) (cats : List Str) (pcts : List Dec) :
    (assembleRecords ic inm cc cn cats pcts).length = cats.length ∧
    (∀ i, i < cats.length →
      ((assembleRecords ic inm cc cn cats pcts).getD i default).category =
          cats.getD i [] ∧
      ((assembleRecords ic inm cc cn cats pcts).getD i default).percentile =
          pcts.get? i) ∧
    assembleRecords ic inm cc cn cats (pcts.take cats.length) =
      assembleRecords ic inm cc cn cats pcts ∧
    (assembleRecords ic inm cc cn
        ["GOPENS".data, "GOPENH".data, "GSCS".data]
        [(⟨9999, 100⟩ : Dec), (⟨95, 1⟩ : Dec)]).map
      (fun r => (r.category, r.percentile)) =
      [("GOPENS".data, some (⟨9999, 100⟩ : Dec)), ("GOPENH".data, some (⟨95, 1⟩ : Dec)),
        ("GSCS".data, none)] := by
  refine ⟨assembleFrom_length ic inm cc cn pcts cats 0, ?_, ?_, ?_⟩
  · intro i hi
    rw [assembleRecords, assembleFrom_getD ic inm cc cn pcts cats 0 i hi]
    exact ⟨rfl, by simp⟩
  · exact assembleFrom_take ic inm cc cn pcts cats 0 cats.length (by omega)
  · rfl

/-- Witness for `c5_assembler`: the third record of the concrete example has
an absent percentile, and the first has 99.99. -/
theorem c5_witness :
    ((assembleRecords "a".data "b".data "c".data "d".data
        ["GOPENS".data, "GOPENH".data, "GSCS".data]
        [(⟨9999, 100⟩ : Dec), (⟨95, 1⟩ : Dec)]).getD 2 default).percentile = none ∧
    ((assembleRecords "a".data "b".data "c".data "d".data
        ["GOPENS".data, "GOPENH".data, "GSCS".data]
        [(⟨9999, 100⟩ : Dec), (⟨95, 1⟩ : Dec)]).getD 0 default).percentile =
      some (⟨9999, 100⟩ : Dec) := by
  have h2 := ((c5_assembler "a".data "b".data "c".data "d".data
    ["GOPENS".data, "GOPENH".data, "GSCS".data]
    [(⟨9999, 100⟩ : Dec), (⟨95, 1⟩ : Dec)]).2.1 2 (by decide)).2
  have h0 := ((c5_assembler "a".data "b".data "c".data "d".data
    ["GOPENS".data, "GOPENH".data, "GSCS".data]
    [(⟨9999, 100⟩ : Dec), (⟨95, 1⟩ : Dec)]).2.1 0 (by decide)).2
  rw [h2, h0]
  exact ⟨rfl, rfl⟩

/-- C3, counterexample: the spec says the percentile phase uses the regex
`\(([0-9]+\.?[0-9]*)\)`, under which the data line `I (9) (99.) (50.25)`
would yield percentiles [9, 99, 50.25].  The code's regex is
`\(([0-9]+\.?[0-9]+)\)`, so the same line yields only [50.25]: `(9)` and
`(99.)` are not extracted, refuting the claim on this block. -/
theorem c3_counterexample :
    simplePcts ["I (9) (99.) (50.25)".data] = [(⟨201, 4⟩ : Dec)] ∧
    extractPercentilesSpec (pyStrip "I (9) (99.) (50.25)".data) =
      [(⟨9, 1⟩ : Dec), (⟨99, 1⟩ : Dec), (⟨201, 4⟩ : Dec)] ∧
    simplePcts ["I (9) (99.) (50.25)".data] ≠
      [(⟨9, 1⟩ : Dec), (⟨99, 1⟩ : Dec), (⟨201, 4⟩ : Dec)] ∧
    (parse_simple_table_course
        ["GOPENS GOPENH GSCS GSTS AB CD EF GH".data,
          "I (9) (99.) (50.25)".data]
        "IC".data "IN".data "CC".data "CN".data).map (fun r => r.percentile) =
      [some (⟨201, 4⟩ : Dec), none, none, none, none, none, none, none] := by
  refine ⟨by decide, by decide, by decide, by decide⟩

/-- C3, amended: for every block suffix starting at the recorded data-section
start, the percentile list consists of exactly the captured groups of the
code's regex `\(([0-9]+\.?[0-9]+)\)` (the digit run after the optional dot
must be nonempty) whose value lies in [0, 100], in order of appearance across
the scanned lines — the suffix up to and including the first stopping line.
In particular `(9)` and `(99.)` are never captured, while `(99)` is. -/
theorem c3_amended :
    (∀ suffix : List Str,
      simplePcts suffix =
        ((pctScanSegment suffix).map fun l =>
          extractPercentiles (pyStrip l)).flatten) ∧
    findAllParenDecimals " (9) ".data = [] ∧
    findAllParenDecimals " (99.) ".data = [] ∧
    findAllParenDecimals " (99) ".data = ["99".data] := by
  refine ⟨?_, by decide, by decide, by decide⟩
  intro suffix
  induction suffix with
  | nil => rfl
  | cons l rest ih =>
    by_cases h : simplePctStop (pyStrip l) = true
    · simp only [simplePcts, pctScanSegment, if_pos h]
      simp
    · simp only [simplePcts, pctScanSegment, if_neg h]
      simp [ih]

/-- If no line of the remaining block is a stopping line, the
category-collection loop records no data-section start. -/
theorem collectCats_no_stop :
    ∀ ls : List Str, (∀ l ∈ ls, collectStop (pyStrip l) = false) →
      (collectCats ls).2 = none := by
  intro ls
  induction ls with
  | nil => intro _; rfl
  | cons l rest ih =>
    intro h
    have hl : collectStop (pyStrip l) = false := h l (List.mem_cons_self _ _)
    simp only [collectCats, hl]
    simp only [Bool.false_eq_true, if_false]
    exact ih fun x hx => h x (List.mem_cons_of_mem _ hx)

/-- Records assembled with an empty percentile list all carry `none`. -/
theorem assembleFrom_nil_percentile (ic inm cc cn : Str) :
    ∀ (cats : List Str) (i : Nat) (r : Record),
      r ∈ assembleFrom ic inm cc cn [] cats i → r.percentile = none := by
  intro cats
  induction cats with
  | nil => intro i r hr; simp [assembleFrom] at hr
  | cons c cs ih =>
    intro i r hr
    simp only [assembleFrom, List.mem_cons] at hr
    rcases hr with hr | hr
    · rw [hr]; simp
    · exact ih (i + 1) r hr

/-- C9: if a primary category header line is found and at least one category
is collected, but the category-collection scan reaches the end of the course
block without meeting any stopping line, then no data-section start is
recorded and every resulting record has an absent percentile. -/
theorem c9_no_data_section (cs : List Str) (ic inm cc cn : Str) (i : Nat)
    (hidx : (cs.findIdx? fun l => isHeaderLine (pyStrip l)) = some i)
    (hnostop : ∀ l ∈ cs.drop (i + 1), collectStop (pyStrip l) = false)
    (hcats : (simpleScan cs).1 ≠ []) :
    (simpleScan cs).2 = none ∧
      ∀ r ∈ parse_simple_table_course cs ic inm cc cn, r.percentile = none := by
  have hnone : (simpleScan cs).2 = none := by
    simp only [simpleScan, hidx]
    exact collectCats_no_stop _ hnostop
  refine ⟨hnone, ?_⟩
  intro r hr
  simp only [parse_simple_table_course] at hr
  rw [if_neg (by simpa [List.isEmpty_iff] using hcats)] at hr
  rw [hnone] at hr
  exact assembleFrom_nil_percentile ic inm cc cn _ 0 r hr

/-- Witness for `c9_no_data_section` on a concrete block whose second line
contains the parenthesized decimal `(99)` (value in [0, 100]) yet is not a
stopping line: no data-section start is recorded and the first record has no
percentile. -/
theorem c9_witness :
    (simpleScan ["GOPENS GOPENH GSCS GSTS AB CD EF GH".data,
        "zz (99) zz".data]).2 = none ∧
    ((parse_simple_table_course
        ["GOPENS GOPENH GSCS GSTS AB CD EF GH".data, "zz (99) zz".data]
        "IC".data "IN".data "CC".data "CN".data).getD 0 default).percentile =
      none := by
  have h := c9_no_data_section
    ["GOPENS GOPENH GSCS GSTS AB CD EF GH".data, "zz (99) zz".data]
    "IC".data "IN".data "CC".data "CN".data 0 (by decide) (by decide)
    (by decide)
  exact ⟨h.1, h.2 _ (by decide)⟩

/-- Function `containsSubstr` decides substring occurrence. -/
theorem containsSubstr_iff (s pat : Str) :
    containsSubstr s pat = true ↔ ∃ a b, s = a ++ pat ++ b := by
  simp only [containsSubstr, List.any_eq_true]
  constructor
  · rintro ⟨t, ht, hp⟩
    rw [List.mem_tails] at ht
    rw [ List.isPrefixOf_iff_prefix] at hp
    obtain ⟨b, hb⟩ := hp
    obtain ⟨a, ha⟩ := ht
    exact ⟨a, b, by rw [← ha, ← hb, List.append_assoc]⟩
  · rintro ⟨a, b, rfl⟩
    refine ⟨pat ++ b, ?_, ?_⟩
    · rw [List.mem_tails]; exact ⟨a, (List.append_assoc a pat b).symm⟩
    · rw [ List.isPrefixOf_iff_prefix]; exact ⟨b, rfl⟩

/-- C2, counterexample: the multi-section parser opens a section at the line
`* Home University Seats Allotted to Home University *`, which is not exactly
equal to any of the four section markers — substring containment, not exact
equality, is what the code tests for the three allotment-scope markers.  Two
records are produced from the section it opens. -/
theorem c2_counterexample :
    (parse_multi_section_course
        ["* Home University Seats Allotted to Home University *".data,
          "GOPENS GOPENH".data, "I 99.99 (99.99) 95.00 (95.00)".data]
        "12345".data "I".data "1234567890".data "C".data).map
      (fun r => (r.category, r.percentile)) =
      [("GOPENS".data, some (⟨9999, 100⟩ : Dec)),
        ("GOPENH".data, some (⟨95, 1⟩ : Dec))] ∧
    isSectionMarker
      (pyStrip "* Home University Seats Allotted to Home University *".data) =
        true ∧
    pyStrip "* Home University Seats Allotted to Home University *".data ∉
      ["Home University Seats Allotted to Home University".data,
       "Home University Seats Allotted to Other Than Home University".data,
       "Other Than Home University Seats Allotted to Other Than Home University".data,
       "State Level".data] := by
  refine ⟨by decide, by decide, by decide⟩

/-- C2, amended: MultiSectionParser opens a section at a line if and only if
the trimmed line contains one of the three allotment-scope marker phrases as a
substring, or is exactly equal to "State Level".  (`isSectionMarker` is the
guard `multiLoop` branches on.) -/
theorem c2_amended (l : Str) :
    isSectionMarker l = true ↔
      ((∃ a b, l = a ++
          "Home University Seats Allotted to Home University".data ++ b) ∨
       (∃ a b, l = a ++
          "Home University Seats Allotted to Other Than Home University".data ++ b) ∨
       (∃ a b, l = a ++
          "Other Than Home University Seats Allotted to Other Than Home University".data ++ b) ∨
       l = "State Level".data) := by
  simp only [isSectionMarker, Bool.or_eq_true, containsSubstr_iff,
    decide_eq_true_eq, or_assoc]

/-- The category phase never rewinds the cursor: it returns a suffix of its
input. -/
theorem catPhase_le (cs : List Str) : (catPhase cs).2.length ≤ cs.length := by
  induction cs with
  | nil => exact Nat.le_refl _
  | cons l rest ih =>
    by_cases h : catPhaseStop (pyStrip l) = true
    · simp only [catPhase, h, if_true]
      exact Nat.le_refl _
    · simp only [catPhase, h, if_false]
      exact Nat.le_succ_of_le ih

/-- The percentile phase never rewinds the cursor: it returns a suffix of its
input. -/
theorem pctPhase_le (cs : List Str) : (pctPhase cs).2.length ≤ cs.length := by
  induction cs with
  | nil => exact Nat.le_refl _
  | cons l rest ih =>
    by_cases h : pctPhaseStop (pyStrip l) = true
    · simp only [pctPhase, h, if_true]
      exact Nat.le_refl _
    · simp only [pctPhase, h, if_false]
      exact Nat.le_succ_of_le ih

/-- With fuel exceeding the number of remaining lines, `multiLoop` no longer
depends on the fuel: every outer iteration strictly shortens the remaining
block. -/
theorem multiLoop_fuel : ∀ (n : Nat) (cs : List Str), cs.length ≤ n →
    ∀ (ic inm cc cn : Str) (f g : Nat), cs.length < f → cs.length < g →
      multiLoop ic inm cc cn f cs = multiLoop ic inm cc cn g cs := by
  intro n
  induction n with
  | zero =>
    intro cs hcs ic inm cc cn f g hf hg
    have hnil : cs = [] := List.eq_nil_of_length_eq_zero (Nat.le_zero.mp hcs)
    subst hnil
    cases f with
    | zero => omega
    | succ f =>
      cases g with
      | zero => omega
      | succ g => rfl
  | succ n ih =>
    intro cs hcs ic inm cc cn f g hf hg
    cases cs with
    | nil =>
      cases f with
      | zero => omega
      | succ f =>
        cases g with
        | zero => omega
        | succ g => rfl
    | cons l rest =>
      cases f with
      | zero => omega
      | succ f =>
        cases g with
        | zero => omega
        | succ g =>
          simp only [multiLoop]
          have hrest : rest.length ≤ n := by
            simp only [List.length_cons] at hcs
            omega
          by_cases hm : isSectionMarker (pyStrip l) = true
          · rw [if_pos hm, if_pos hm]
            have hs2 : ((pctPhase (catPhase rest).2).2).length ≤ rest.length :=
              Nat.le_trans (pctPhase_le _) (catPhase_le _)
            have := ih ((pctPhase (catPhase rest).2).2) (Nat.le_trans hs2 hrest)
              ic inm cc cn f g (by simp only [List.length_cons] at hf; omega)
              (by simp only [List.length_cons] at hg; omega)
            rw [this]
          · rw [if_neg hm, if_neg hm]
            exact ih rest hrest ic inm cc cn f g
              (by simp only [List.length_cons] at hf; omega)
              (by simp only [List.length_cons] at hg; omega)

/-- C10: `parse_multi_section_course` terminates on every finite course block.
The two inner phases never rewind the cursor (they return suffixes of their
input), each outer iteration strictly shortens the remaining block (by one
line when the current line is not a section marker, and past the consumed
marker line otherwise), and consequently the fueled outer loop is independent
of the fuel once the fuel exceeds the block length. -/
theorem c10_termination :
    (∀ cs : List Str, (catPhase cs).2.length ≤ cs.length) ∧
    (∀ cs : List Str, (pctPhase cs).2.length ≤ cs.length) ∧
    (∀ (l : Str) (rest : List Str),
      ((pctPhase (catPhase rest).2).2).length < (l :: rest).length ∧
      rest.length < (l :: rest).length) ∧
    (∀ (ic inm cc cn : Str) (f : Nat) (cs : List Str), cs.length < f →
      multiLoop ic inm cc cn f cs = multiLoop ic inm cc cn (cs.length + 1) cs) := by
  refine ⟨catPhase_le, pctPhase_le, ?_, ?_⟩
  · intro l rest
    constructor
    · have := Nat.le_trans (pctPhase_le (catPhase rest).2) (catPhase_le rest)
      simp only [List.length_cons]
      omega
    · simp only [List.length_cons]
      omega
  · intro ic inm cc cn f cs hf
    exact multiLoop_fuel cs.length cs (Nat.le_refl _) ic inm cc cn f
      (cs.length + 1) hf (Nat.lt_succ_self _)

/-- Witness for `c10_termination`: on a concrete three-line block, running the
outer loop with any sufficient fuel gives the same records. -/
theorem c10_witness :
    multiLoop "i".data "n".data "c".data "d".data 9
        ["State Level".data, "GOPENS".data, "I 99.99 (99.99)".data] =
      multiLoop "i".data "n".data "c".data "d".data 4
        ["State Level".data, "GOPENS".data, "I 99.99 (99.99)".data] :=
  (c10_termination.2.2.2 "i".data "n".data "c".data "d".data 9
      ["State Level".data, "GOPENS".data, "I 99.99 (99.99)".data]
      (by decide)).trans
    (c10_termination.2.2.2 "i".data "n".data "c".data "d".data 4
      ["State Level".data, "GOPENS".data, "I 99.99 (99.99)".data]
      (by decide)).symm

/-- C1, counterexample: on the exact four-line page of the claim the parse
yields zero records, not four — the category header line
`GOPENS GOPENH GSCS GSTS` has only 4 whitespace-separated tokens, while the
simple-table header test (`final_parser.py` line 100) requires at least 8. -/
theorem c1_counterexample :
    parse_cutoff_page_complete
      ("12345 - ABC College Of Engineering\n1234567890 - Computer Engineering\nGOPENS GOPENH GSCS GSTS\nI 99.99 (99.99) 95.00 (95.00) 90.00 (90.00) 85.00 (85.00)").data
      = [] := by
  decide

/-- C1, amended: with line 3 padded to the required 8 tokens by four
non-category fillers (`GOPENS GOPENH GSCS GSTS G1 G2 G3 G4`), parsing the
page yields exactly 4 records, all with Institute_Code `12345` and
Course_Code `1234567890`, with categories GOPENS, GOPENH, GSCS, GSTS paired
respectively with percentiles 99.99, 95.00, 90.00, 85.00; with the claim's
original 4-token line 3 the page yields no records. -/
theorem c1_amended :
    parse_cutoff_page_complete
      ("12345 - ABC College Of Engineering\n1234567890 - Computer Engineering\nGOPENS GOPENH GSCS GSTS G1 G2 G3 G4\nI 99.99 (99.99) 95.00 (95.00) 90.00 (90.00) 85.00 (85.00)").data
      =
      [⟨"12345".data, "ABC College Of Engineering".data, "1234567890".data,
        "Computer Engineering".data, "GOPENS".data, some ⟨9999, 100⟩⟩,
       ⟨"12345".data, "ABC College Of Engineering".data, "1234567890".data,
        "Computer Engineering".data, "GOPENH".data, some ⟨95, 1⟩⟩,
       ⟨"12345".data, "ABC College Of Engineering".data, "1234567890".data,
        "Computer Engineering".data, "GSCS".data, some ⟨90, 1⟩⟩,
       ⟨"12345".data, "ABC College Of Engineering".data, "1234567890".data,
        "Computer Engineering".data, "GSTS".data, some ⟨85, 1⟩⟩] := by
  decide

/-- C8: a page none of whose trimmed lines matches `^\d{5} - ` yields no
records at all, regardless of its other content. -/
theorem c8_no_institute (text : Str)
    (h : ∀ l ∈ splitLines text, matchInstLine (pyStrip l) = false) :
    parse_cutoff_page_complete text = [] := by
  have hfind :
      (splitLines text).find? (fun l => matchInstLine (pyStrip l)) = none := by
    rw [List.find?_eq_none]
    intro x hx
    simp [h x hx]
  simp only [parse_cutoff_page_complete, findInstitute, hfind]

/-- Witness for `c8_no_institute` on a concrete two-line page with course
headers absent. -/
theorem c8_witness :
    (∀ l ∈ splitLines "hello\nworld".data,
        matchInstLine (pyStrip l) = false) ∧
      parse_cutoff_page_complete "hello\nworld".data = [] :=
  ⟨by decide, c8_no_institute "hello\nworld".data (by decide)⟩

/-- C7, counterexample: on a page whose two course headers (lines 1 and 3)
carry the same course code, the position dict keeps only the last position,
so the first course's computed range is `[3, 3)` — it does not span from its
own header line 1. -/
theorem c7_counterexample :
    courseHeaders ["12345 - I".data, "1234567890 - A".data, "x".data,
        "1234567890 - B".data, "y".data] =
      [(1, "1234567890".data, "A".data), (3, "1234567890".data, "B".data)] ∧
    courseRanges ["12345 - I".data, "1234567890 - A".data, "x".data,
        "1234567890 - B".data, "y".data] =
      [("1234567890".data, "A".data, 3, 3),
       ("1234567890".data, "B".data, 3, 5)] ∧
    ((courseRanges ["12345 - I".data, "1234567890 - A".data, "x".data,
        "1234567890 - B".data, "y".data]).getD 0 default).2.2.1 ≠
      ((courseHeaders ["12345 - I".data, "1234567890 - A".data, "x".data,
        "1234567890 - B".data, "y".data]).getD 0 default).1 := by
  refine ⟨by decide, by decide, by decide⟩

/-- Setting a key and reading it back. -/
theorem assocGet_assocSet_same (m : List (Str × Nat)) (k : Str) (v : Nat) :
    assocGet k (assocSet m k v) = some v := by
  induction m with
  | nil => simp [assocSet, assocGet]
  | cons p rest ih =>
    obtain ⟨k', v'⟩ := p
    by_cases h : k' = k
    · simp [assocSet, assocGet, h]
    · simp [assocSet, assocGet, h, ih]

/-- Setting one key leaves other keys unchanged. -/
theorem assocGet_assocSet_ne (m : List (Str × Nat)) {k k2 : Str} (v : Nat)
    (h : k2 ≠ k) : assocGet k2 (assocSet m k v) = assocGet k2 m := by
  induction m with
  | nil =>
    simp only [assocSet, assocGet]
    rw [if_neg fun he => h he.symm]
  | cons p rest ih =>
    obtain ⟨k', v'⟩ := p
    by_cases hk : k' = k
    · subst hk
      simp only [assocSet, if_pos rfl, assocGet]
      rw [if_neg fun he => h he.symm, if_neg fun he => h he.symm]
    · simp only [assocSet, if_neg hk, assocGet]
      by_cases h2 : k' = k2
      · rw [if_pos h2, if_pos h2]
      · rw [if_neg h2, if_neg h2, ih]

/-- A code absent from the remaining headers reads through the positions
fold. -/
theorem foldl_assocGet_not_mem (hs : List (Nat × Str × Str)) :
    ∀ (acc : List (Str × Nat)) (c : Str), c ∉ hs.map (fun h => h.2.1) →
      assocGet c (hs.foldl (fun acc h => assocSet acc h.2.1 h.1) acc) =
        assocGet c acc := by
  induction hs with
  | nil => intro acc c _; rfl
  | cons x rest ih =>
    intro acc c hc
    simp only [List.map_cons, List.mem_cons, not_or] at hc
    simp only [List.foldl_cons]
    rw [ih _ c hc.2, assocGet_assocSet_ne _ _ hc.1]

/-- With pairwise-distinct codes, the positions dict maps each header's code
to that header's own position. -/
theorem foldl_assocGet_mem (hs : List (Nat × Str × Str)) :
    ∀ acc, ((hs.map fun h => h.2.1).Nodup) →
      ∀ h ∈ hs,
        assocGet h.2.1 (hs.foldl (fun acc h => assocSet acc h.2.1 h.1) acc) =
          some h.1 := by
  induction hs with
  | nil => intro acc _ h hh; simp at hh
  | cons x rest ih =>
    intro acc hnd h hh
    simp only [List.map_cons, List.nodup_cons] at hnd
    simp only [List.foldl_cons]
    rcases List.mem_cons.mp hh with rfl | hh
    · rw [foldl_assocGet_not_mem rest _ _ hnd.1, assocGet_assocSet_same]
    · exact ih _ hnd.2 h hh

/-- Scanned course headers sit at or after the scan's base index. -/
theorem courseHeadersFrom_le (ls : List Str) :
    ∀ (i : Nat) (x : Nat × Str × Str), x ∈ courseHeadersFrom ls i →
      i ≤ x.1 := by
  induction ls with
  | nil => intro i x hx; simp [courseHeadersFrom] at hx
  | cons l rest ih =>
    intro i x hx
    simp only [courseHeadersFrom] at hx
    by_cases hm : matchCourseLine (pyStrip l) = true
    · rw [if_pos hm] at hx
      rcases List.mem_cons.mp hx with rfl | hx
      · exact Nat.le_refl _
      · exact Nat.le_of_succ_le (ih (i + 1) x hx)
    · rw [if_neg hm] at hx
      exact Nat.le_of_succ_le (ih (i + 1) x hx)

/-- Course-header positions are strictly increasing in scan order. -/
theorem courseHeadersFrom_pairwise (ls : List Str) :
    ∀ i, List.Pairwise (fun a b => a.1 < b.1) (courseHeadersFrom ls i) := by
  induction ls with
  | nil => intro i; simp [courseHeadersFrom]
  | cons l rest ih =>
    intro i
    simp only [courseHeadersFrom]
    by_cases hm : matchCourseLine (pyStrip l) = true
    · rw [if_pos hm]
      refine List.Pairwise.cons ?_ (ih (i + 1))
      intro y hy
      exact Nat.lt_of_lt_of_le (Nat.lt_succ_self i)
        (courseHeadersFrom_le rest (i + 1) y hy)
    · rw [if_neg hm]
      exact ih (i + 1)

/-- Position monotonicity between two header indices. -/
theorem courseHeaders_pos_lt (lines : List Str) {a b : Nat}
    (ha : a < (courseHeaders lines).length)
    (hb : b < (courseHeaders lines).length) (hab : a < b) :
    ((courseHeaders lines).getD a default).1 <
      ((courseHeaders lines).getD b default).1 := by
  have hp := courseHeadersFrom_pairwise lines 0
  rw [List.getD_eq_getElem _ _ ha, List.getD_eq_getElem _ _ hb]
  exact List.pairwise_iff_getElem.mp hp a b ha hb hab

/-- The number of course ranges equals the number of course headers. -/
theorem courseRanges_length (lines : List Str) :
    (courseRanges lines).length = (courseHeaders lines).length := by
  simp [courseRanges]

/-- Shape of the k-th course range when all course codes on the page are
pairwise distinct. -/
theorem courseRanges_getD (lines : List Str)
    (hnd : ((courseHeaders lines).map fun h => h.2.1).Nodup)
    (k : Nat) (hk : k < (courseHeaders lines).length) :
    (courseRanges lines).getD k default =
      (((courseHeaders lines).getD k default).2.1,
       ((courseHeaders lines).getD k default).2.2,
       ((courseHeaders lines).getD k default).1,
       if k + 1 < (courseHeaders lines).length then
         ((courseHeaders lines).getD (k + 1) default).1
       else lines.length) := by
  have hk' : k < ((List.range (courseHeaders lines).length).map fun idx =>
      let h := (courseHeaders lines).getD idx default
      let s := (assocGet h.2.1 (coursePositions lines)).getD 0
      let e := if idx + 1 < (courseHeaders lines).length then
          (assocGet (((courseHeaders lines).getD (idx + 1) default).2.1)
            (coursePositions lines)).getD lines.length
        else lines.length
      (h.2.1, h.2.2, s, e)).length := by
    simpa using hk
  have hcr : courseRanges lines =
      (List.range (courseHeaders lines).length).map fun idx =>
        let h := (courseHeaders lines).getD idx default
        let s := (assocGet h.2.1 (coursePositions lines)).getD 0
        let e := if idx + 1 < (courseHeaders lines).length then
            (assocGet (((courseHeaders lines).getD (idx + 1) default).2.1)
              (coursePositions lines)).getD lines.length
          else lines.length
        (h.2.1, h.2.2, s, e) := rfl
  rw [hcr, List.getD_eq_getElem _ _ hk', List.getElem_map, List.getElem_range]
  have hmemk : (courseHeaders lines).getD k default ∈ courseHeaders lines := by
    rw [List.getD_eq_getElem _ _ hk]
    exact List.getElem_mem hk
  have hsk : assocGet ((courseHeaders lines).getD k default).2.1
      (coursePositions lines) =
      some ((courseHeaders lines).getD k default).1 :=
    foldl_assocGet_mem (courseHeaders lines) [] hnd _ hmemk
  by_cases hk1 : k + 1 < (courseHeaders lines).length
  · have hmemk1 :
        (courseHeaders lines).getD (k + 1) default ∈ courseHeaders lines := by
      rw [List.getD_eq_getElem _ _ hk1]
      exact List.getElem_mem hk1
    have hsk1 : assocGet ((courseHeaders lines).getD (k + 1) default).2.1
        (coursePositions lines) =
        some ((courseHeaders lines).getD (k + 1) default).1 :=
      foldl_assocGet_mem (courseHeaders lines) [] hnd _ hmemk1
    simp only [hsk, hsk1, if_pos hk1, Option.getD_some]
  · simp only [hsk, if_neg hk1, Option.getD_some]

/-- C7, amended: provided the course codes found on the page are pairwise
distinct, every course's computed line range spans from its own header line
to the line before the next course header (or to the page end for the last
course), and every line lying between consecutive course headers belongs to
exactly the earlier course's range. -/
theorem c7_amended (lines : List Str)
    (hnd : ((courseHeaders lines).map fun h => h.2.1).Nodup) :
    (courseRanges lines).length = (courseHeaders lines).length ∧
    (∀ k, k < (courseHeaders lines).length →
      (courseRanges lines).getD k default =
        (((courseHeaders lines).getD k default).2.1,
         ((courseHeaders lines).getD k default).2.2,
         ((courseHeaders lines).getD k default).1,
         if k + 1 < (courseHeaders lines).length then
           ((courseHeaders lines).getD (k + 1) default).1
         else lines.length)) ∧
    (∀ k l, k + 1 < (courseHeaders lines).length →
      ((courseHeaders lines).getD k default).1 ≤ l →
      l < ((courseHeaders lines).getD (k + 1) default).1 →
      inRange ((courseRanges lines).getD k default) l = true ∧
      ∀ k2, k2 < (courseHeaders lines).length → k2 ≠ k →
        inRange ((courseRanges lines).getD k2 default) l = false) := by
  refine ⟨courseRanges_length lines, courseRanges_getD lines hnd, ?_⟩
  intro k l hk1 hlo hhi
  have hk : k < (courseHeaders lines).length := Nat.lt_of_succ_lt hk1
  constructor
  · rw [courseRanges_getD lines hnd k hk]
    simp only [inRange, if_pos hk1]
    rw [Bool.and_eq_true, decide_eq_true_eq, decide_eq_true_eq]
    exact ⟨hlo, hhi⟩
  · intro k2 hk2 hne
    rw [courseRanges_getD lines hnd k2 hk2]
    rcases Nat.lt_or_ge k2 k with hlt | hge
    · have hk21 : k2 + 1 < (courseHeaders lines).length := by omega
      have hle : ((courseHeaders lines).getD (k2 + 1) default).1 ≤
          ((courseHeaders lines).getD k default).1 := by
        rcases Nat.eq_or_lt_of_le (by omega : k2 + 1 ≤ k) with heq | hlt2
        · rw [heq]
        · exact Nat.le_of_lt (courseHeaders_pos_lt lines hk21 hk hlt2)
      have hnl : ¬ (l < ((courseHeaders lines).getD (k2 + 1) default).1) := by
        omega
      simp only [inRange, if_pos hk21]
      rw [decide_eq_false hnl, Bool.and_false]
    · have hklt : k + 1 ≤ k2 := by omega
      have hge2 : ((courseHeaders lines).getD (k + 1) default).1 ≤
          ((courseHeaders lines).getD k2 default).1 := by
        rcases Nat.eq_or_lt_of_le hklt with heq | hlt2
        · rw [heq]
        · exact Nat.le_of_lt (courseHeaders_pos_lt lines hk1 hk2 hlt2)
      have hns : ¬ (((courseHeaders lines).getD k2 default).1 ≤ l) := by
        omega
      simp only [inRange]
      rw [decide_eq_false hns, Bool.false_and]

/-- Witness for `c7_amended` on a two-course page with distinct codes:
course 0's range is `[1, 3)`, line 2 belongs to it and not to course 1. -/
theorem c7_witness :
    (courseRanges ["12345 - I".data, "1111111111 - A".data, "x".data,
        "2222222222 - B".data, "y".data]).getD 0 default =
      ("1111111111".data, "A".data, 1, 3) ∧
    inRange ((courseRanges ["12345 - I".data, "1111111111 - A".data, "x".data,
        "2222222222 - B".data, "y".data]).getD 0 default) 2 = true ∧
    inRange ((courseRanges ["12345 - I".data, "1111111111 - A".data, "x".data,
        "2222222222 - B".data, "y".data]).getD 1 default) 2 = false := by
  have h := c7_amended ["12345 - I".data, "1111111111 - A".data, "x".data,
    "2222222222 - B".data, "y".data] (by decide)
  refine ⟨(h.2.1 0 (by decide)).trans (by decide),
    (h.2.2 0 2 (by decide) (by decide) (by decide)).1,
    (h.2.2 0 2 (by decide) (by decide) (by decide)).2 1 (by decide)
      (by decide)⟩

/-- Characters with equal code points are equal. -/
theorem charEq_of_toNat_eq {a b : Char} (h : a.toNat = b.toNat) : a = b :=
  Char.ext (UInt32.ext h)

/-- String comparison is irreflexive. -/
theorem strLt_irrefl : ∀ s : Str, strLtB s s = false := by
  intro s
  induction s with
  | nil => rfl
  | cons c cs ih => simp [strLtB, Nat.lt_irrefl, ih]

/-- String comparison is asymmetric. -/
theorem strLt_asymm : ∀ a b : Str, strLtB a b = true → strLtB b a = false := by
  intro a
  induction a with
  | nil =>
    intro b h
    cases b with
    | nil => simp [strLtB] at h
    | cons d ds => rfl
  | cons c cs ih =>
    intro b h
    cases b with
    | nil => simp [strLtB] at h
    | cons d ds =>
      simp only [strLtB] at h ⊢
      by_cases h1 : c.toNat < d.toNat
      · rw [if_neg (Nat.lt_asymm h1), if_pos h1]
      · rw [if_neg h1] at h
        by_cases h2 : d.toNat < c.toNat
        · rw [if_pos h2] at h
          exact absurd h (by simp)
        · rw [if_neg h2] at h
          rw [if_neg h2, if_neg h1]
          exact ih ds h

/-- String comparison is transitive. -/
theorem strLt_trans :
    ∀ a b c : Str, strLtB a b = true → strLtB b c = true →
      strLtB a c = true := by
  intro a
  induction a with
  | nil =>
    intro b c hab hbc
    cases b with
    | nil => simp [strLtB] at hab
    | cons d ds =>
      cases c with
      | nil => simp [strLtB] at hbc
      | cons e es => rfl
  | cons x xs ih =>
    intro b c hab hbc
    cases b with
    | nil => simp [strLtB] at hab
    | cons d ds =>
      cases c with
      | nil => simp [strLtB] at hbc
      | cons e es =>
        simp only [strLtB] at hab hbc ⊢
        by_cases h1 : x.toNat < d.toNat
        · by_cases h2 : d.toNat < e.toNat
          · rw [if_pos (Nat.lt_trans h1 h2)]
          · rw [if_neg h2] at hbc
            by_cases h3 : e.toNat < d.toNat
            · rw [if_pos h3] at hbc
              exact absurd hbc (by simp)
            · rw [if_pos (by omega : x.toNat < e.toNat)]
        · rw [if_neg h1] at hab
          by_cases h1' : d.toNat < x.toNat
          · rw [if_pos h1'] at hab
            exact absurd hab (by simp)
          · rw [if_neg h1'] at hab
            by_cases h2 : d.toNat < e.toNat
            · rw [if_pos (by omega : x.toNat < e.toNat)]
            · rw [if_neg h2] at hbc
              by_cases h3 : e.toNat < d.toNat
              · rw [if_pos h3] at hbc
                exact absurd hbc (by simp)
              · rw [if_neg h3] at hbc
                rw [if_neg (by omega : ¬ x.toNat < e.toNat),
                  if_neg (by omega : ¬ e.toNat < x.toNat)]
                exact ih ds es hab hbc

/-- Two strings neither of which is less than the other are equal. -/
theorem strLt_connex :
    ∀ a b : Str, strLtB a b = false → strLtB b a = false → a = b := by
  intro a
  induction a with
  | nil =>
    intro b h1 _
    cases b with
    | nil => rfl
    | cons d ds => simp [strLtB] at h1
  | cons x xs ih =>
    intro b h1 h2
    cases b with
    | nil => simp [strLtB] at h2
    | cons d ds =>
      simp only [strLtB] at h1 h2
      by_cases hx : x.toNat < d.toNat
      · rw [if_pos hx] at h1
        exact absurd h1 (by simp)
      · rw [if_neg hx] at h1
        by_cases hd : d.toNat < x.toNat
        · rw [if_pos hd] at h2
          exact absurd h2 (by simp)
        · rw [if_neg hd] at h1
          rw [if_neg hd, if_neg hx] at h2
          rw [charEq_of_toNat_eq (by omega : x.toNat = d.toNat), ih ds h1 h2]

/-- Truth characterization of the key comparison. -/
theorem keyLtB_eq_true_iff (x y : Str × Str × Str) :
    keyLtB x y = true ↔
      strLtB x.1 y.1 = true ∨
        (x.1 = y.1 ∧ (strLtB x.2.1 y.2.1 = true ∨
          (x.2.1 = y.2.1 ∧ strLtB x.2.2 y.2.2 = true))) := by
  simp [keyLtB, Bool.or_eq_true, Bool.and_eq_true, beq_iff_eq]

/-- Two keys cannot each be strictly below the other. -/
theorem keyLt_both_false {x y : Str × Str × Str} (h1 : keyLtB x y = true)
    (h2 : keyLtB y x = true) : False := by
  rw [keyLtB_eq_true_iff] at h1 h2
  rcases h1 with h1 | ⟨e1, h1⟩
  · rcases h2 with h2 | ⟨e2, _⟩
    · have := strLt_asymm _ _ h1
      exact Bool.false_ne_true (this.symm.trans h2)
    · rw [e2] at h1
      exact Bool.false_ne_true ((strLt_irrefl _).symm.trans h1)
  · rcases h2 with h2 | ⟨_, h2⟩
    · rw [e1] at h2
      exact Bool.false_ne_true ((strLt_irrefl _).symm.trans h2)
    · rcases h1 with h1 | ⟨f1, h1⟩
      · rcases h2 with h2 | ⟨f2, _⟩
        · have := strLt_asymm _ _ h1
          exact Bool.false_ne_true (this.symm.trans h2)
        · rw [f2] at h1
          exact Bool.false_ne_true ((strLt_irrefl _).symm.trans h1)
      · rcases h2 with h2 | ⟨_, h2⟩
        · rw [f1] at h2
          exact Bool.false_ne_true ((strLt_irrefl _).symm.trans h2)
        · have := strLt_asymm _ _ h1
          exact Bool.false_ne_true (this.symm.trans h2)

/-- The key comparison is irreflexive. -/
theorem keyLt_irrefl (x : Str × Str × Str) : keyLtB x x = false := by
  cases h : keyLtB x x
  · rfl
  · exact (keyLt_both_false h h).elim

/-- The key comparison is asymmetric. -/
theorem keyLt_asymm {x y : Str × Str × Str} (h : keyLtB x y = true) :
    keyLtB y x = false := by
  cases h2 : keyLtB y x
  · rfl
  · exact (keyLt_both_false h h2).elim

/-- The key comparison is transitive. -/
theorem keyLt_trans {x y z : Str × Str × Str} (h1 : keyLtB x y = true)
    (h2 : keyLtB y z = true) : keyLtB x z = true := by
  rw [keyLtB_eq_true_iff] at h1 h2 ⊢
  rcases h1 with h1 | ⟨e1, h1⟩
  · rcases h2 with h2 | ⟨e2, _⟩
    · exact Or.inl (strLt_trans _ _ _ h1 h2)
    · rw [← e2]
      exact Or.inl h1
  · rcases h2 with h2 | ⟨e2, h2⟩
    · rw [e1]
      exact Or.inl h2
    · refine Or.inr ⟨e1.trans e2, ?_⟩
      rcases h1 with h1 | ⟨f1, h1⟩
      · rcases h2 with h2 | ⟨f2, _⟩
        · exact Or.inl (strLt_trans _ _ _ h1 h2)
        · rw [← f2]
          exact Or.inl h1
      · rcases h2 with h2 | ⟨f2, h2⟩
        · rw [f1]
          exact Or.inl h2
        · exact Or.inr ⟨f1.trans f2, strLt_trans _ _ _ h1 h2⟩

/-- Keys neither of which is below the other are equal. -/
theorem keyLt_connex {x y : Str × Str × Str} (h1 : keyLtB x y = false)
    (h2 : keyLtB y x = false) : x = y := by
  obtain ⟨x1, x2, x3⟩ := x
  obtain ⟨y1, y2, y3⟩ := y
  simp only [keyLtB, Bool.or_eq_false_iff, Bool.and_eq_false_iff,
    beq_eq_false_iff_ne, ne_eq] at h1 h2
  have e1 : x1 = y1 := strLt_connex x1 y1 h1.1 h2.1
  rcases h1.2 with hno | h1'
  · exact absurd e1 hno
  · rcases h2.2 with hno | h2'
    · exact absurd e1.symm hno
    · have e2 : x2 = y2 := strLt_connex x2 y2 h1'.1 h2'.1
      rcases h1'.2 with hno | h1''
      · exact absurd e2 hno
      · rcases h2'.2 with hno | h2''
        · exact absurd e2.symm hno
        · have e3 : x3 = y3 := strLt_connex x3 y3 h1'' h2''
          rw [e1, e2, e3]

/-- Key non-strict comparison is transitive. -/
theorem keyLe_trans {a b c : Str × Str × Str} (h1 : keyLtB b a = false)
    (h2 : keyLtB c b = false) : keyLtB c a = false := by
  cases hca : keyLtB c a
  · rfl
  · exfalso
    cases hbc : keyLtB b c
    · have hbceq := keyLt_connex hbc h2
      rw [hbceq] at h1
      exact Bool.false_ne_true (h1.symm.trans hca)
    · have := keyLt_trans hbc hca
      exact Bool.false_ne_true (h1.symm.trans this)

/-- Members of an insertion are the inserted record or old members. -/
theorem mem_ordInsert {r y : Record} :
    ∀ {l : List Record}, y ∈ ordInsert r l → y = r ∨ y ∈ l := by
  intro l
  induction l with
  | nil =>
    intro h
    simp [ordInsert] at h
    exact Or.inl h
  | cons x xs ih =>
    intro h
    simp only [ordInsert] at h
    by_cases hc : keyLtB (recKey x) (recKey r) = true
    · rw [if_pos hc] at h
      rcases List.mem_cons.mp h with rfl | h
      · exact Or.inr (List.mem_cons_self _ _)
      · rcases ih h with h | h
        · exact Or.inl h
        · exact Or.inr (List.mem_cons_of_mem _ h)
    · rw [if_neg hc] at h
      rcases List.mem_cons.mp h with rfl | h
      · exact Or.inl rfl
      · exact Or.inr h

/-- Insertion preserves sortedness by the key. -/
theorem ordInsert_pairwise (r : Record) :
    ∀ l, List.Pairwise (fun a b => keyLtB (recKey b) (recKey a) = false) l →
      List.Pairwise (fun a b => keyLtB (recKey b) (recKey a) = false)
        (ordInsert r l) := by
  intro l
  induction l with
  | nil => intro _; simp [ordInsert]
  | cons x xs ih =>
    intro h
    rcases List.pairwise_cons.mp h with ⟨hx, hxs⟩
    simp only [ordInsert]
    by_cases hc : keyLtB (recKey x) (recKey r) = true
    · rw [if_pos hc]
      refine List.Pairwise.cons ?_ (ih hxs)
      intro y hy
      rcases mem_ordInsert hy with rfl | hy
      · exact keyLt_asymm hc
      · exact hx y hy
    · rw [if_neg hc]
      have hcf : keyLtB (recKey x) (recKey r) = false := by
        cases hcc : keyLtB (recKey x) (recKey r)
        · rfl
        · exact absurd hcc hc
      refine List.Pairwise.cons ?_ h
      intro y hy
      rcases List.mem_cons.mp hy with rfl | hy
      · exact hcf
      · exact keyLe_trans hcf (hx y hy)

/-- The sort produces a list sorted (non-strictly) by the key triple. -/
theorem sortRecords_pairwise :
    ∀ l, List.Pairwise (fun a b => keyLtB (recKey b) (recKey a) = false)
      (sortRecords l) := by
  intro l
  induction l with
  | nil => simp [sortRecords]
  | cons r rs ih => exact ordInsert_pairwise r _ ih

/-- C6, amended: in the final dataset, if row A precedes row B then the key
triple (Institute_Code, Course_Code, Category) of A is not lexicographically
greater than that of B, and if the triple of A is strictly less than that of
B then A precedes B.  The claimed "iff with strictly less" fails only for
distinct rows sharing the same triple (same institute, course and category
with different percentiles), which survive 6-tuple deduplication. -/
theorem c6_amended (recs : List Record) (i j : Nat)
    (hi : i < (finalize recs).length) (hj : j < (finalize recs).length) :
    (i < j → keyLtB (recKey ((finalize recs).getD j default))
        (recKey ((finalize recs).getD i default)) = false) ∧
    (keyLtB (recKey ((finalize recs).getD i default))
        (recKey ((finalize recs).getD j default)) = true → i < j) := by
  have hp := sortRecords_pairwise (dropDuplicates recs)
  constructor
  · intro hij
    rw [List.getD_eq_getElem _ _ hi, List.getD_eq_getElem _ _ hj]
    exact List.pairwise_iff_getElem.mp hp i j hi hj hij
  · intro hlt
    by_contra hnot
    rcases Nat.lt_or_ge j i with hji | hij2
    · have hpair := List.pairwise_iff_getElem.mp hp j i hj hi hji
      rw [List.getD_eq_getElem _ _ hi, List.getD_eq_getElem _ _ hj] at hlt
      exact Bool.false_ne_true (hpair.symm.trans hlt)
    · have hije : i = j := by omega
      subst hije
      rw [keyLt_irrefl] at hlt
      exact Bool.false_ne_true hlt

/-- C6, counterexample: a multi-section page lists GOPENS under both a Home
University section and a State Level section with different percentiles; both
records survive 6-tuple deduplication, so the final dataset holds two
distinct adjacent rows with identical key triples — row 0 precedes row 1 yet
its triple is not lexicographically less, refuting the claimed "iff". -/
theorem c6_counterexample :
    (finalize (parse_cutoff_page_complete
        ("12345 - Inst\n1234567890 - Course\nHome University Seats Allotted to Home University\nGOPENS\nI 99.99 (99.99)\nStage\nState Level\nGOPENS\nI 88.88 (88.88)").data)).length
      = 2 ∧
    recKey ((finalize (parse_cutoff_page_complete
        ("12345 - Inst\n1234567890 - Course\nHome University Seats Allotted to Home University\nGOPENS\nI 99.99 (99.99)\nStage\nState Level\nGOPENS\nI 88.88 (88.88)").data)).getD 0 default)
      = recKey ((finalize (parse_cutoff_page_complete
        ("12345 - Inst\n1234567890 - Course\nHome University Seats Allotted to Home University\nGOPENS\nI 99.99 (99.99)\nStage\nState Level\nGOPENS\nI 88.88 (88.88)").data)).getD 1 default) ∧
    ((finalize (parse_cutoff_page_complete
        ("12345 - Inst\n1234567890 - Course\nHome University Seats Allotted to Home University\nGOPENS\nI 99.99 (99.99)\nStage\nState Level\nGOPENS\nI 88.88 (88.88)").data)).getD 0 default)
      ≠ ((finalize (parse_cutoff_page_complete
        ("12345 - Inst\n1234567890 - Course\nHome University Seats Allotted to Home University\nGOPENS\nI 99.99 (99.99)\nStage\nState Level\nGOPENS\nI 88.88 (88.88)").data)).getD 1 default) ∧
    keyLtB (recKey ((finalize (parse_cutoff_page_complete
        ("12345 - Inst\n1234567890 - Course\nHome University Seats Allotted to Home University\nGOPENS\nI 99.99 (99.99)\nStage\nState Level\nGOPENS\nI 88.88 (88.88)").data)).getD 0 default))
      (recKey ((finalize (parse_cutoff_page_complete
        ("12345 - Inst\n1234567890 - Course\nHome University Seats Allotted to Home University\nGOPENS\nI 99.99 (99.99)\nStage\nState Level\nGOPENS\nI 88.88 (88.88)").data)).getD 1 default))
      = false := by
  refine ⟨by decide, by decide, by decide, by decide⟩

/-- Witness for `c6_amended` on a concrete two-record input with distinct
keys: after finalization, the earlier row's key is not greater. -/
theorem c6_witness :
    keyLtB
      (recKey ((finalize
        [⟨"2".data, [], "1".data, [], "B".data, none⟩,
         ⟨"1".data, [], "1".data, [], "A".data, none⟩]).getD 1 default))
      (recKey ((finalize
        [⟨"2".data, [], "1".data, [], "B".data, none⟩,
         ⟨"1".data, [], "1".data, [], "A".data, none⟩]).getD 0 default))
      = false :=
  (c6_amended
    [⟨"2".data, [], "1".data, [], "B".data, none⟩,
     ⟨"1".data, [], "1".data, [], "A".data, none⟩]
    0 1 (by decide) (by decide)).1 (by decide)

end Cet
